import Mathlib

/-
Verification of the jinjx reactive core: a shallow embedding of
`JinjxSignal` (src/reactive/jinjx-signal.ts), `JinjxSignalList`
(src/reactive/jinjx-signal-list.ts) and `JinjxScope` (src/dom/jinjx-scope.ts).

Modelling conventions:
* Watcher / cleanup callbacks are opaque: they are represented by `Nat`
  identities.  A JavaScript `Set` of callbacks is represented by a `List Nat`
  whose `Nodup` property is the set invariant; iteration order of a JS `Set`
  is insertion order, i.e. the list order.
* A mutating method becomes a pure function from the receiver state to the
  result value, the successor state, and the list of notification events the
  call emitted (in order).  For `JinjxSignal` an event records one watcher
  invocation `(watcher id, newVal, oldVal)`; for `JinjxSignalList` an event is
  one notification broadcast `(newVal, oldVal)` delivered to every watcher.
* JavaScript array aliasing (`[...a]` / `.slice()` copies versus passing the
  array object itself) is invisible in the pure model, so a second, heap-level
  model (`Store`, `pushH`, `valueH`) makes array references explicit: an array
  reference is an index into a store of arrays, `.slice()` allocates a fresh
  reference, and in-place mutation writes through the existing reference.
-/

/-- State of `JinjxSignal<T>`: the stored value `_value` and the `listeners`
set (watcher identities, insertion order). -/
structure JinjxSignal (T : Type) where
  _value : T
  listeners : List Nat

/-- One watcher invocation: `(watcher id, newVal, oldVal)`. -/
abbrev SignalEvent (T : Type) := Nat × T × T

/-- `JinjxSignal.changed`: the default change predicate `newVal !== oldVal`
(strict inequality). -/
def JinjxSignal.changed {T : Type} [DecidableEq T] (newVal oldVal : T) : Bool :=
  decide (newVal ≠ oldVal)

/-- `JinjxSignal.notify`: invokes every listener with `(newVal, oldVal)`. -/
def JinjxSignal.notify {T : Type} (s : JinjxSignal T) (newVal oldVal : T) :
    List (SignalEvent T) :=
  s.listeners.map (fun w => (w, newVal, oldVal))

/-- `JinjxSignal.set value`, parameterised by the change predicate `chg`
(the class allows `changed` to be overridden in subclasses):
if `!chg(newVal, _value)` the call returns immediately; otherwise `_value`
is assigned `newVal` and then `notify(newVal, oldVal)` runs on the updated
object. -/
def JinjxSignal.setValueWith {T : Type} (chg : T → T → Bool)
    (s : JinjxSignal T) (newVal : T) : JinjxSignal T × List (SignalEvent T) :=
  if !(chg newVal s._value) then (s, [])
  else
    let oldVal := s._value
    let s' : JinjxSignal T := { s with _value := newVal }
    (s', s'.notify newVal oldVal)

/-- `JinjxSignal.set value` with the default `changed` predicate. -/
def JinjxSignal.setValue {T : Type} [DecidableEq T]
    (s : JinjxSignal T) (newVal : T) : JinjxSignal T × List (SignalEvent T) :=
  s.setValueWith JinjxSignal.changed newVal

/-- State of `JinjxSignalList<T>`: backing array `data`, watcher set,
freeze flag `_frozen` and the pause-time snapshot `_frozenValue`. -/
structure JinjxSignalList (T : Type) where
  data : List T
  watchers : List Nat
  _frozen : Bool
  _frozenValue : List T

/-- `new JinjxSignalList(initial)`: copies `initial` into `data`; empty
watcher set; not frozen; `_frozenValue = []`. -/
def JinjxSignalList.make {T : Type} (initial : List T) : JinjxSignalList T :=
  { data := initial, watchers := [], _frozen := false, _frozenValue := [] }

/-- One notification broadcast `(newVal, oldVal)` delivered to all watchers. -/
abbrev ListEvent (T : Type) := List T × List T

/-- Result of a `JinjxSignalList` method call: return value, successor state,
emitted notification events. -/
structure LRes (ρ T : Type) where
  ret : ρ
  state : JinjxSignalList T
  events : List (ListEvent T)

/-- `JinjxSignalList.notify`: returns early when `_frozen`, otherwise fires
one broadcast to the watcher set. -/
def JinjxSignalList.notify {T : Type} (s : JinjxSignalList T)
    (newVal oldVal : List T) : List (ListEvent T) :=
  if s._frozen then [] else [(newVal, oldVal)]

/-- `JinjxSignalList.pause`: sets `_frozen` and snapshots `data` into
`_frozenValue`. -/
def JinjxSignalList.pause {T : Type} (s : JinjxSignalList T) : JinjxSignalList T :=
  { s with _frozen := true, _frozenValue := s.data }

/-- `JinjxSignalList.begin`: clears `_frozen`, then calls
`notify(data, _frozenValue)` on the unfrozen state. -/
def JinjxSignalList.begin {T : Type} (s : JinjxSignalList T) : LRes Unit T :=
  let s' : JinjxSignalList T := { s with _frozen := false }
  ⟨(), s', s'.notify s'.data s._frozenValue⟩

/-- `get value`: returns a copy of `data` (in the pure model, the list value
itself); no state change. -/
def JinjxSignalList.value {T : Type} (s : JinjxSignalList T) : List T :=
  s.data

/-- `set value(newArray)`: replaces `data` with a copy of `newArray` and calls
`notify(data, oldVal)` — no equality check on this path. -/
def JinjxSignalList.setValue {T : Type} (s : JinjxSignalList T)
    (newArray : List T) : LRes Unit T :=
  let oldVal := s.data
  let s' : JinjxSignalList T := { s with data := newArray }
  ⟨(), s', s'.notify s'.data oldVal⟩

/-- `push(...items)`: snapshots `data`, appends `items`, calls `notify`
unconditionally, returns the new length. -/
def JinjxSignalList.push {T : Type} (s : JinjxSignalList T) (items : List T) :
    LRes Nat T :=
  let oldVal := s.data
  let s' : JinjxSignalList T := { s with data := s.data ++ items }
  ⟨s'.data.length, s', s'.notify s'.data oldVal⟩

/-- `pop()`: returns `undefined` (here `none`) on an empty array without
notifying; otherwise removes and returns the last element and notifies. -/
def JinjxSignalList.pop {T : Type} (s : JinjxSignalList T) : LRes (Option T) T :=
  if s.data.length = 0 then ⟨none, s, []⟩
  else
    let oldVal := s.data
    let s' : JinjxSignalList T := { s with data := s.data.dropLast }
    ⟨s.data.getLast?, s', s'.notify s'.data oldVal⟩

/-- `unshift(...items)`: snapshots `data`, prepends `items`, calls `notify`
unconditionally, returns the new length. -/
def JinjxSignalList.unshift {T : Type} (s : JinjxSignalList T) (items : List T) :
    LRes Nat T :=
  let oldVal := s.data
  let s' : JinjxSignalList T := { s with data := items ++ s.data }
  ⟨s'.data.length, s', s'.notify s'.data oldVal⟩

/-- `shift()`: returns `undefined` (here `none`) on an empty array without
notifying; otherwise removes and returns the first element and notifies. -/
def JinjxSignalList.shift {T : Type} (s : JinjxSignalList T) : LRes (Option T) T :=
  if s.data.length = 0 then ⟨none, s, []⟩
  else
    let oldVal := s.data
    let s' : JinjxSignalList T := { s with data := s.data.tail }
    ⟨s.data.head?, s', s'.notify s'.data oldVal⟩

/-- `removeByIndex(index)`: `undefined` (here `none`) without notification when
`index < 0 || index >= data.length`; otherwise `splice(index, 1)` — remove the
element at `index` — and notify. -/
def JinjxSignalList.removeByIndex {T : Type} (s : JinjxSignalList T)
    (index : Int) : LRes (Option T) T :=
  if index < 0 ∨ (s.data.length : Int) ≤ index then ⟨none, s, []⟩
  else
    let oldVal := s.data
    let i := index.toNat
    let s' : JinjxSignalList T := { s with data := s.data.eraseIdx i }
    ⟨s.data[i]?, s', s'.notify s'.data oldVal⟩

/-- `Array.prototype.filter` with the JavaScript callback signature
`(item, index, array)`; `orig` is the array the callback receives and `i`
the index of the head of the remaining list. -/
def jsFilter {T : Type} (p : T → Nat → List T → Bool) (orig : List T) :
    Nat → List T → List T
  | _, [] => []
  | i, x :: xs =>
    if p x i orig then x :: jsFilter p orig (i + 1) xs
    else jsFilter p orig (i + 1) xs

/-- `filterBy(callback)`: `newArr = data.filter(callback)`;
`removed = oldVal.filter(item => !newArr.includes(item))`; when
`removed.length > 0 || newArr.length !== oldVal.length` the backing array is
replaced by `newArr` and `notify` fires; `removed` is returned either way. -/
def JinjxSignalList.filterBy {T : Type} [DecidableEq T] (s : JinjxSignalList T)
    (callback : T → Nat → List T → Bool) : LRes (List T) T :=
  let oldVal := s.data
  let newArr := jsFilter callback s.data 0 s.data
  let removed := oldVal.filter (fun item => !(newArr.contains item))
  if removed.length > 0 ∨ newArr.length ≠ oldVal.length then
    let s' : JinjxSignalList T := { s with data := newArr }
    ⟨removed, s', s'.notify s'.data oldVal⟩
  else ⟨removed, s, []⟩

/-- Stable insertion of `x` into a `le`-sorted list: `x` goes in front of the
first element `y` with `le x y`. -/
def orderedInsert {T : Type} (le : T → T → Bool) (x : T) : List T → List T
  | [] => [x]
  | y :: ys => if le x y then x :: y :: ys else y :: orderedInsert le x ys

/-- Modelled from the spec: `Array.prototype.sort(compareFn)` — ECMAScript
requires a stable sort, and for a consistent comparator a stable sort's output
is unique, so it is modelled by stable insertion sort.  The comparator is
abstracted as `le a b` meaning `compareFn(a, b) <= 0`. -/
def sortModel {T : Type} (le : T → T → Bool) : List T → List T
  | [] => []
  | x :: xs => orderedInsert le x (sortModel le xs)

/-- `arraysShallowEqual`: lengths equal and `arr1[i] === arr2[i]` at every
index. -/
def arraysShallowEqual {T : Type} [DecidableEq T] : List T → List T → Bool
  | [], [] => true
  | x :: xs, y :: ys => decide (x = y) && arraysShallowEqual xs ys
  | _, _ => false

/-- `orderBy(compareFn)`: snapshots `data`, sorts in place, notifies iff
`!arraysShallowEqual(data, oldVal)`, and returns `this` (the updated
collection). -/
def JinjxSignalList.orderBy {T : Type} [DecidableEq T] (s : JinjxSignalList T)
    (le : T → T → Bool) : LRes (JinjxSignalList T) T :=
  let oldVal := s.data
  let s' : JinjxSignalList T := { s with data := sortModel le s.data }
  if !(arraysShallowEqual s'.data oldVal) then ⟨s', s', s'.notify s'.data oldVal⟩
  else ⟨s', s', []⟩

/-- State of `JinjxScope`: the ordered `_effectStore` of registered cleanup
actions (opaque callbacks, by identity). -/
structure JinjxScope where
  _effectStore : List Nat

/-- `JinjxScope.effect(effectFn)`: appends the action to `_effectStore`. -/
def JinjxScope.effect (s : JinjxScope) (effectFn : Nat) : JinjxScope :=
  { _effectStore := s._effectStore ++ [effectFn] }

/-- The `for (const effect of this._effectStore) effect();` loop of
`dispose`, under a behaviour environment `beh` (`beh a = true` means invoking
action `a` throws).  Returns the actions invoked, in order, and whether the
loop was aborted by a thrown exception. -/
def runEffects (beh : Nat → Bool) : List Nat → List Nat × Bool
  | [] => ([], false)
  | a :: rest =>
    if beh a then ([a], true)
    else
      let r := runEffects beh rest
      (a :: r.1, r.2)

/-- `JinjxScope.dispose()`: runs every stored action in order, then assigns
`_effectStore = []`.  If an action throws, the exception propagates before the
assignment runs, leaving `_effectStore` untouched.  Returns the successor
state, the invoked actions in order, and whether an exception escaped. -/
def JinjxScope.dispose (beh : Nat → Bool) (s : JinjxScope) :
    JinjxScope × List Nat × Bool :=
  let r := runEffects beh s._effectStore
  if r.2 then (s, r.1, true)
  else (⟨[]⟩, r.1, false)

/-- Heap model: an array reference is an index into a store of arrays. -/
structure Store (T : Type) where
  arrays : List (List T)

/-- Dereference an array reference. -/
def Store.read {T : Type} (st : Store T) (r : Nat) : List T :=
  st.arrays.getD r []

/-- In-place mutation of the array behind reference `r`. -/
def Store.write {T : Type} (st : Store T) (r : Nat) (v : List T) : Store T :=
  ⟨st.arrays.set r v⟩

/-- Allocate a fresh array (what `.slice()` / `[...a]` do) and return its
reference. -/
def Store.alloc {T : Type} (st : Store T) (v : List T) : Store T × Nat :=
  (⟨st.arrays ++ [v]⟩, st.arrays.length)

/-- Heap-level result of a `JinjxSignalList` call: successor store, returned
number, and the notification events as the *references* handed to watchers,
`(newVal reference, oldVal reference)`. -/
structure HRes (T : Type) where
  store : Store T
  ret : Nat
  events : List (Nat × Nat)

/-- Heap-level `push`: `self` is the reference held in the private `data`
field.  `oldVal = data.slice()` allocates a copy; `data.push(...items)`
mutates through `self`; `notify(this.data, oldVal)` hands watchers the
references `(self, oldVal)` — `this.data` itself, not a copy. -/
def pushH {T : Type} (st : Store T) (self : Nat) (items : List T) : HRes T :=
  let arr := st.read self
  let a := st.alloc arr
  let st2 := a.1.write self (arr ++ items)
  ⟨st2, (arr ++ items).length, [(self, a.2)]⟩

/-- Heap-level `get value`: `[...this.data]` allocates a fresh copy and
returns its reference. -/
def valueH {T : Type} (st : Store T) (self : Nat) : Store T × Nat :=
  st.alloc (st.read self)

/-! ### Shared helper lemmas -/

theorem arraysShallowEqual_iff {T : Type} [DecidableEq T] :
    ∀ (l1 l2 : List T), arraysShallowEqual l1 l2 = true ↔ l1 = l2
  | [], [] => by simp [arraysShallowEqual]
  | [], _ :: _ => by simp [arraysShallowEqual]
  | _ :: _, [] => by simp [arraysShallowEqual]
  | x :: xs, y :: ys => by
    simp [arraysShallowEqual, arraysShallowEqual_iff xs ys]

theorem jsFilter_value_pred {T : Type} (p : T → Bool) (orig : List T) :
    ∀ (i : Nat) (l : List T), jsFilter (fun x _ _ => p x) orig i l = l.filter p
  | _, [] => rfl
  | i, x :: xs => by
    by_cases h : p x <;>
      simp [jsFilter, h, jsFilter_value_pred p orig (i + 1) xs, List.filter_cons]

theorem orderedInsert_of_le_head {T : Type} (le : T → T → Bool) (x : T)
    (l : List T) (h : ∀ y ∈ l.head?, le x y = true) :
    orderedInsert le x l = x :: l := by
  cases l with
  | nil => rfl
  | cons y ys => simp [orderedInsert, h y (by simp)]

theorem sortModel_of_pairwise {T : Type} (le : T → T → Bool) :
    ∀ (l : List T), l.Pairwise (fun a b => le a b = true) → sortModel le l = l
  | [], _ => rfl
  | x :: xs, h => by
    have hx : ∀ y ∈ xs, le x y = true := (List.pairwise_cons.mp h).1
    have ih := sortModel_of_pairwise le xs (List.pairwise_cons.mp h).2
    simp only [sortModel, ih]
    refine orderedInsert_of_le_head le x xs ?_
    intro y hy
    exact hx y (by cases xs <;> simp_all)

theorem filter_contains_of_mem {T : Type} [DecidableEq T] (p : T → Bool)
    (l : List T) (x : T) (hx : x ∈ l) : (l.filter p).contains x = p x := by
  by_cases h : p x
  · simp only [h]
    have : x ∈ l.filter p := List.mem_filter.mpr ⟨hx, h⟩
    simpa [List.contains] using this
  · simp only [Bool.not_eq_true] at h
    simp only [h]
    have : x ∉ l.filter p := by
      intro hmem
      have := (List.mem_filter.mp hmem).2
      simp [h] at this
    simpa [List.contains] using this

/-! ### Claim C1 -/

/-- Claim C1: for every write `s.value = v` to a Signal, if the change
predicate (default: strict inequality `v !== s.value`) reports no change the
call is a complete no-op (state unchanged, no watcher invoked); otherwise the
stored value is replaced by `v` before any watcher runs (the notification is
computed against the updated object) and every registered watcher is invoked
exactly once with `(v, oldValue)` before the setter returns. -/
theorem c1_signal_write {T : Type} [DecidableEq T] (chg : T → T → Bool)
    (s : JinjxSignal T) (v : T) :
    (chg v s._value = false → s.setValueWith chg v = (s, [])) ∧
    (chg v s._value = true →
      (s.setValueWith chg v).1._value = v ∧
      (s.setValueWith chg v).1.listeners = s.listeners ∧
      (s.setValueWith chg v).2 =
        (s.setValueWith chg v).1.listeners.map
          (fun w => (w, (s.setValueWith chg v).1._value, s._value)) ∧
      (s.listeners.Nodup → ∀ w ∈ s.listeners,
        ((s.setValueWith chg v).2.map (fun e => e.1)).count w = 1 ∧
        (w, v, s._value) ∈ (s.setValueWith chg v).2)) ∧
    s.setValue v = s.setValueWith JinjxSignal.changed v ∧
    JinjxSignal.changed v s._value = decide (v ≠ s._value) := by
  refine ⟨?_, ?_, rfl, rfl⟩
  · intro h
    simp [JinjxSignal.setValueWith, h]
  · intro h
    simp only [JinjxSignal.setValueWith, h, Bool.not_true, Bool.false_eq_true,
      if_false, JinjxSignal.notify]
    refine ⟨trivial, trivial, trivial, ?_⟩
    intro hnd w hw
    constructor
    · simp only [List.map_map]
      have : ((fun (e : SignalEvent T) => e.1) ∘ fun w => (w, v, s._value)) = id := rfl
      rw [this, List.map_id]
      exact List.count_eq_one_of_mem hnd hw
    · exact List.mem_map.mpr ⟨w, hw, rfl⟩

/-- Witness for C1 at concrete inputs: an unchanged write to a signal holding
`5` is a no-op, and a changed write `0 ↦ 1` with watcher set `[7, 9]` stores
`1` and invokes watcher `7` exactly once. -/
theorem c1_signal_write_witness :
    JinjxSignal.setValueWith JinjxSignal.changed
      (⟨5, [7]⟩ : JinjxSignal Nat) 5 = (⟨5, [7]⟩, []) ∧
    (JinjxSignal.setValueWith JinjxSignal.changed
      (⟨0, [7, 9]⟩ : JinjxSignal Nat) 1).1._value = 1 ∧
    ((JinjxSignal.setValueWith JinjxSignal.changed
      (⟨0, [7, 9]⟩ : JinjxSignal Nat) 1).2.map (fun e => e.1)).count 7 = 1 ∧
    ((7 : Nat), (1 : Nat), (0 : Nat)) ∈
      (JinjxSignal.setValueWith JinjxSignal.changed
        (⟨0, [7, 9]⟩ : JinjxSignal Nat) 1).2 := by
  have h1 := (c1_signal_write JinjxSignal.changed
    (⟨5, [7]⟩ : JinjxSignal Nat) 5).1 (by decide)
  have h2 := (c1_signal_write JinjxSignal.changed
    (⟨0, [7, 9]⟩ : JinjxSignal Nat) 1).2.1 (by decide)
  exact ⟨h1, h2.1, (h2.2.2.2 (by decide) 7 (by decide)).1,
    (h2.2.2.2 (by decide) 7 (by decide)).2⟩

/-! ### Store (heap) lemmas -/

theorem Store.read_alloc_old {T : Type} (st : Store T) (v : List T) (r : Nat)
    (h : r < st.arrays.length) : (st.alloc v).1.read r = st.read r := by
  simp [Store.alloc, Store.read, List.getD, List.getElem?_append_left h]

theorem Store.read_alloc_new {T : Type} (st : Store T) (v : List T) :
    (st.alloc v).1.read (st.alloc v).2 = v := by
  simp [Store.alloc, Store.read, List.getD, List.getElem?_concat_length]

theorem Store.alloc_ref {T : Type} (st : Store T) (v : List T) :
    (st.alloc v).2 = st.arrays.length := rfl

theorem Store.alloc_length {T : Type} (st : Store T) (v : List T) :
    (st.alloc v).1.arrays.length = st.arrays.length + 1 := by
  simp [Store.alloc]

theorem Store.read_write_ne {T : Type} (st : Store T) (r r' : Nat) (v : List T)
    (h : r' ≠ r) : (st.write r v).read r' = st.read r' := by
  simp [Store.write, Store.read, List.getD, List.getElem?_set_ne (fun he => h he.symm)]

theorem Store.read_write_self {T : Type} (st : Store T) (r : Nat) (v : List T)
    (h : r < st.arrays.length) : (st.write r v).read r = v := by
  simp [Store.write, Store.read, List.getD, List.getElem?_set_self h]

/-! ### Scope lemmas -/

theorem runEffects_of_no_throw (beh : Nat → Bool) :
    ∀ (l : List Nat), (∀ a ∈ l, beh a = false) → runEffects beh l = (l, false)
  | [], _ => rfl
  | a :: rest, h => by
    simp [runEffects, h a (by simp),
      runEffects_of_no_throw beh rest (fun x hx => h x (by simp [hx]))]

theorem runEffects_throw (beh : Nat → Bool) (k : Nat) (hk : beh k = true) :
    ∀ (pre post : List Nat), (∀ a ∈ pre, beh a = false) →
      runEffects beh (pre ++ k :: post) = (pre ++ [k], true)
  | [], post, _ => by simp [runEffects, hk]
  | a :: pre, post, h => by
    simp [runEffects, h a (by simp),
      runEffects_throw beh k hk pre post (fun x hx => h x (by simp [hx]))]

/-! ### Claim C5 -/

/-- Claim C5: for every Scope whose registered cleanup actions all complete
normally, `dispose()` invokes every registered cleanup action exactly once, in
registration order (the invocation log is exactly `_effectStore`), no
exception escapes, and afterwards the action list is empty, so a second
`dispose()` call invokes nothing. -/
theorem c5_scope_dispose (beh : Nat → Bool) (s : JinjxScope)
    (h : ∀ a ∈ s._effectStore, beh a = false) :
    (JinjxScope.dispose beh s).2.1 = s._effectStore ∧
    (JinjxScope.dispose beh s).2.2 = false ∧
    (JinjxScope.dispose beh s).1._effectStore = [] ∧
    (JinjxScope.dispose beh (JinjxScope.dispose beh s).1).2.1 = [] := by
  have hr := runEffects_of_no_throw beh s._effectStore h
  simp [JinjxScope.dispose, hr, runEffects]

/-- Witness for C5: a scope with actions `[1, 2, 3]`, none of which throws,
invokes exactly `[1, 2, 3]` in order, ends empty, and a second dispose
invokes nothing. -/
theorem c5_scope_dispose_witness :
    (JinjxScope.dispose (fun _ => false) ⟨[1, 2, 3]⟩).2.1 = [1, 2, 3] ∧
    (JinjxScope.dispose (fun _ => false) ⟨[1, 2, 3]⟩).2.2 = false ∧
    (JinjxScope.dispose (fun _ => false) ⟨[1, 2, 3]⟩).1._effectStore = [] ∧
    (JinjxScope.dispose (fun _ => false)
      (JinjxScope.dispose (fun _ => false) ⟨[1, 2, 3]⟩).1).2.1 = [] :=
  c5_scope_dispose (fun _ => false) ⟨[1, 2, 3]⟩ (by decide)

/-! ### Claim C10 -/

/-- Claim C10 (implicit): Scope disposal is not atomic under a throwing
cleanup action.  If the actions before `k` complete and invoking `k` throws,
`dispose()` invokes exactly the earlier actions and `k`, the exception
propagates (`true` flag), the action list is NOT cleared, and a subsequent
`dispose()` re-invokes those same actions a second time, violating
"exactly once". -/
theorem c10_dispose_throw (beh : Nat → Bool) (pre post : List Nat) (k : Nat)
    (hpre : ∀ a ∈ pre, beh a = false) (hk : beh k = true) :
    (JinjxScope.dispose beh ⟨pre ++ k :: post⟩).2.1 = pre ++ [k] ∧
    (JinjxScope.dispose beh ⟨pre ++ k :: post⟩).2.2 = true ∧
    (JinjxScope.dispose beh ⟨pre ++ k :: post⟩).1 = ⟨pre ++ k :: post⟩ ∧
    (JinjxScope.dispose beh
      (JinjxScope.dispose beh ⟨pre ++ k :: post⟩).1).2.1 = pre ++ [k] := by
  have hr := runEffects_throw beh k hk pre post hpre
  simp [JinjxScope.dispose, hr]

/-- Witness for C10: actions `[1, 2, 3]` where invoking `2` throws.  The
first dispose invokes `[1, 2]` and leaves the store at `[1, 2, 3]`; the
second dispose invokes `[1, 2]` again. -/
theorem c10_dispose_throw_witness :
    (JinjxScope.dispose (fun a => decide (a = 2)) ⟨[1, 2, 3]⟩).2.1 = [1, 2] ∧
    (JinjxScope.dispose (fun a => decide (a = 2)) ⟨[1, 2, 3]⟩).2.2 = true ∧
    (JinjxScope.dispose (fun a => decide (a = 2)) ⟨[1, 2, 3]⟩).1 = ⟨[1, 2, 3]⟩ ∧
    (JinjxScope.dispose (fun a => decide (a = 2))
      (JinjxScope.dispose (fun a => decide (a = 2)) ⟨[1, 2, 3]⟩).1).2.1 = [1, 2] :=
  c10_dispose_throw (fun a => decide (a = 2)) [1] [3] 2 (by decide) (by decide)

/-! ### Claim C9 -/

/-- Claim C9: `pop()` and `shift()` on an empty list return the absent marker
(`none`) and fire zero notifications, and `removeByIndex(i)` with `i < 0` or
`i >= length` returns the absent marker and fires zero notifications; in all
three cases the whole state is unchanged. -/
theorem c9_absent_noops {T : Type} (s : JinjxSignalList T) (index : Int) :
    (s.data = [] →
      s.pop = ⟨none, s, []⟩ ∧ s.shift = ⟨none, s, []⟩) ∧
    ((index < 0 ∨ (s.data.length : Int) ≤ index) →
      s.removeByIndex index = ⟨none, s, []⟩) := by
  constructor
  · intro h
    constructor <;> simp [JinjxSignalList.pop, JinjxSignalList.shift, h]
  · intro h
    simp [JinjxSignalList.removeByIndex, h]

/-- Witness for C9: the empty list for `pop`/`shift`; `[1, 2]` with indices
`-1` and `2` for `removeByIndex`. -/
theorem c9_absent_noops_witness :
    (JinjxSignalList.make ([] : List Nat)).pop
      = ⟨none, JinjxSignalList.make [], []⟩ ∧
    (JinjxSignalList.make ([] : List Nat)).shift
      = ⟨none, JinjxSignalList.make [], []⟩ ∧
    (JinjxSignalList.make ([1, 2] : List Nat)).removeByIndex (-1)
      = ⟨none, JinjxSignalList.make [1, 2], []⟩ ∧
    (JinjxSignalList.make ([1, 2] : List Nat)).removeByIndex 2
      = ⟨none, JinjxSignalList.make [1, 2], []⟩ := by
  have h1 := (c9_absent_noops (JinjxSignalList.make ([] : List Nat)) 0).1 rfl
  have h2 := (c9_absent_noops (JinjxSignalList.make ([1, 2] : List Nat)) (-1)).2
    (by decide)
  have h3 := (c9_absent_noops (JinjxSignalList.make ([1, 2] : List Nat)) 2).2
    (by decide)
  exact ⟨h1.1, h1.2, h2, h3⟩

/-! ### Claim C4 -/

/-- Counterexample to C4 as stated: on the unfrozen list `[1]`, the zero-item
calls `push()` and `unshift()` each fire one notification (with
`newValue = oldValue = [1]`), not zero. -/
theorem c4_push_unshift_cex :
    ((JinjxSignalList.make ([1] : List Nat)).push []).events = [([1], [1])] ∧
    ((JinjxSignalList.make ([1] : List Nat)).unshift []).events = [([1], [1])] ∧
    ((JinjxSignalList.make ([1] : List Nat)).push []).events ≠ [] := by
  refine ⟨rfl, rfl, by decide⟩

/-- Claim C4 as amended: for every unfrozen SignalList, `push(...items)` and
`unshift(...items)` append/prepend the given items and return the new length,
and always fire exactly one notification — even when zero items are supplied
(`notify` is called unconditionally, so a zero-item call notifies with
`newValue` equal to `oldValue`). -/
theorem c4_push_unshift {T : Type} (s : JinjxSignalList T) (items : List T)
    (h : s._frozen = false) :
    (s.push items).state.data = s.data ++ items ∧
    (s.push items).ret = (s.data ++ items).length ∧
    (s.push items).events = [(s.data ++ items, s.data)] ∧
    (s.unshift items).state.data = items ++ s.data ∧
    (s.unshift items).ret = (items ++ s.data).length ∧
    (s.unshift items).events = [(items ++ s.data, s.data)] := by
  simp [JinjxSignalList.push, JinjxSignalList.unshift, JinjxSignalList.notify, h]

/-- Witness for C4 (amended) at the unfrozen list `[1]` with `items = [2]`. -/
theorem c4_push_unshift_witness :
    ((JinjxSignalList.make ([1] : List Nat)).push [2]).state.data = [1, 2] ∧
    ((JinjxSignalList.make ([1] : List Nat)).push [2]).ret = 2 ∧
    ((JinjxSignalList.make ([1] : List Nat)).push [2]).events = [([1, 2], [1])] ∧
    ((JinjxSignalList.make ([1] : List Nat)).unshift [2]).state.data = [2, 1] ∧
    ((JinjxSignalList.make ([1] : List Nat)).unshift [2]).ret = 2 ∧
    ((JinjxSignalList.make ([1] : List Nat)).unshift [2]).events
      = [([2, 1], [1])] := by
  have h := c4_push_unshift (JinjxSignalList.make ([1] : List Nat)) [2] rfl
  exact ⟨h.1, h.2.1, h.2.2.1, h.2.2.2.1, h.2.2.2.2.1, h.2.2.2.2.2⟩

/-! ### Claim C2 -/

/-- Counterexample to C2 as stated: on the claim's own input — `[1,2,3]`,
`pause()`, `push(4)`, `shift()`, `push(5)`, `begin()` — the single coalesced
notification has `newValue = [2,3,4,5]`, not `[2,4,5]` as the claim asserts
(and the suppressed-span calls emit nothing). -/
theorem c2_pause_coalesce_cex :
    ((((JinjxSignalList.make ([1, 2, 3] : List Nat)).pause.push
        [4]).state.shift).state.push [5]).state.begin.events
      = [([2, 3, 4, 5], [1, 2, 3])] ∧
    ((JinjxSignalList.make ([1, 2, 3] : List Nat)).pause.push [4]).events = [] ∧
    (((JinjxSignalList.make ([1, 2, 3] : List Nat)).pause.push
        [4]).state.shift).events = [] ∧
    ((((JinjxSignalList.make ([1, 2, 3] : List Nat)).pause.push
        [4]).state.shift).state.push [5]).events = [] ∧
    ([2, 3, 4, 5] : List Nat) ≠ [2, 4, 5] := by
  exact ⟨rfl, rfl, rfl, rfl, by decide⟩

/-- Claim C2 as amended: after `pause()` every mutator still updates the
internal sequence but delivers no notification, and `begin()` fires exactly
one notification whose `oldValue` is the snapshot taken at the most recent
`pause()` (`_frozenValue`) and whose `newValue` is the current post-mutation
sequence; in particular, starting from `[1,2,3]`, the call sequence `pause()`,
`push(4)`, `shift()`, `push(5)`, `begin()` fires exactly one notification with
`oldValue = [1,2,3]` and `newValue = [2,3,4,5]` (not `[2,4,5]`). -/
theorem c2_pause_coalesce {T : Type} (s : JinjxSignalList T)
    (items a : List T) :
    (s._frozen = true →
      ((s.push items).events = [] ∧
        (s.push items).state.data = s.data ++ items) ∧
      ((s.unshift items).events = [] ∧
        (s.unshift items).state.data = items ++ s.data) ∧
      (s.shift.events = [] ∧
        (s.data ≠ [] → s.shift.state.data = s.data.tail)) ∧
      (s.pop.events = [] ∧
        (s.data ≠ [] → s.pop.state.data = s.data.dropLast)) ∧
      ((s.setValue a).events = [] ∧ (s.setValue a).state.data = a)) ∧
    (s.pause._frozen = true ∧ s.pause._frozenValue = s.data ∧
      s.pause.data = s.data) ∧
    (s.begin.events = [(s.data, s._frozenValue)] ∧
      s.begin.state._frozen = false ∧ s.begin.state.data = s.data) ∧
    ((((JinjxSignalList.make ([1, 2, 3] : List Nat)).pause.push
        [4]).state.shift).state.push [5]).state.begin.events
      = [([2, 3, 4, 5], [1, 2, 3])] := by
  refine ⟨?_, ⟨rfl, rfl, rfl⟩, ⟨?_, rfl, rfl⟩, rfl⟩
  · intro hf
    refine ⟨?_, ?_, ?_, ?_, ?_⟩
    · simp [JinjxSignalList.push, JinjxSignalList.notify, hf]
    · simp [JinjxSignalList.unshift, JinjxSignalList.notify, hf]
    · constructor
      · rcases h : s.data with _ | ⟨x, xs⟩ <;>
          simp [JinjxSignalList.shift, JinjxSignalList.notify, hf, h]
      · intro hne
        simp [JinjxSignalList.shift, JinjxSignalList.notify, hf,
          List.length_eq_zero, hne]
    · constructor
      · rcases h : s.data with _ | ⟨x, xs⟩ <;>
          simp [JinjxSignalList.pop, JinjxSignalList.notify, hf, h]
      · intro hne
        simp [JinjxSignalList.pop, JinjxSignalList.notify, hf,
          List.length_eq_zero, hne]
    · simp [JinjxSignalList.setValue, JinjxSignalList.notify, hf]
  · simp [JinjxSignalList.begin, JinjxSignalList.notify]

/-- Witness for C2 (amended) on a concrete frozen state: the paused list
`[1,2]` suppresses the `push([3])` notification while updating the data, and
`begin()` then fires exactly one notification against the pause snapshot. -/
theorem c2_pause_coalesce_witness :
    ((JinjxSignalList.make ([1, 2] : List Nat)).pause.push [3]).events = [] ∧
    ((JinjxSignalList.make ([1, 2] : List Nat)).pause.push [3]).state.data
      = [1, 2, 3] ∧
    ((JinjxSignalList.make ([1, 2] : List Nat)).pause.push [3]).state.shift.events
      = [] ∧
    ((JinjxSignalList.make ([1, 2] : List Nat)).pause.push
      [3]).state.shift.state.data = [2, 3] := by
  have h1 := c2_pause_coalesce ((JinjxSignalList.make ([1, 2] : List Nat)).pause)
    [3] ([] : List Nat)
  have h2 := c2_pause_coalesce
    (((JinjxSignalList.make ([1, 2] : List Nat)).pause.push [3]).state)
    ([] : List Nat) ([] : List Nat)
  refine ⟨(h1.1 rfl).1.1, (h1.1 rfl).1.2, (h2.1 rfl).2.2.1.1, ?_⟩
  exact ((h2.1 rfl).2.2.1.2 (by decide)).trans (by decide)

/-! ### Claim C6 -/

/-- Counterexample to C6 as stated: the claim quantifies over every
SignalList, but on a paused (frozen) list the whole-value setter replaces the
sequence and fires zero notifications. -/
theorem c6_whole_value_cex :
    ((JinjxSignalList.make ([1] : List Nat)).pause.setValue [2]).events = [] ∧
    ((JinjxSignalList.make ([1] : List Nat)).pause.setValue [2]).state.data
      = [2] := by
  exact ⟨rfl, rfl⟩

/-- Claim C6 as amended: for every *unfrozen* SignalList and every supplied
array `a`, the whole-value setter replaces the internal sequence with (a copy
of) `a` and always fires exactly one notification, even when `a` is
element-wise equal to the current sequence (no equality check on this path);
the `value` getter returns the sequence without any state change, and at the
heap level it hands out a fresh reference whose mutation cannot reach the
internal array. -/
theorem c6_whole_value {T : Type} (s : JinjxSignalList T) (a : List T)
    (h : s._frozen = false) :
    (s.setValue a).state.data = a ∧
    (s.setValue a).state.watchers = s.watchers ∧
    (s.setValue a).events = [(a, s.data)] ∧
    (a = s.data → (s.setValue a).events = [(s.data, s.data)]) ∧
    s.value = s.data ∧
    (∀ (st : Store T) (self : Nat), self < st.arrays.length →
      (valueH st self).2 ≠ self ∧
      (valueH st self).1.read (valueH st self).2 = st.read self ∧
      (valueH st self).1.read self = st.read self ∧
      ∀ v, ((valueH st self).1.write (valueH st self).2 v).read self
        = st.read self) := by
  refine ⟨?_, ?_, ?_, ?_, rfl, ?_⟩
  · simp [JinjxSignalList.setValue]
  · simp [JinjxSignalList.setValue]
  · simp [JinjxSignalList.setValue, JinjxSignalList.notify, h]
  · intro ha
    simp [JinjxSignalList.setValue, JinjxSignalList.notify, h, ha]
  · intro st self hself
    have hne : (valueH st self).2 ≠ self := by
      simp only [valueH, Store.alloc]
      omega
    refine ⟨hne, ?_, ?_, ?_⟩
    · exact Store.read_alloc_new st (st.read self)
    · exact Store.read_alloc_old st (st.read self) self hself
    · intro v
      rw [Store.read_write_ne _ _ _ _ (fun he => hne he.symm)]
      exact Store.read_alloc_old st (st.read self) self hself

/-- Witness for C6 (amended): the unfrozen list `[1]` with `a = [1]` (equal
contents) still fires exactly one notification, and the heap-level getter on
a one-array store returns a fresh reference. -/
theorem c6_whole_value_witness :
    ((JinjxSignalList.make ([1] : List Nat)).setValue [1]).events
      = [([1], [1])] ∧
    ((JinjxSignalList.make ([1] : List Nat)).setValue [2]).state.data = [2] ∧
    (valueH (⟨[[1]]⟩ : Store Nat) 0).2 ≠ 0 ∧
    ((valueH (⟨[[1]]⟩ : Store Nat) 0).1.write
      (valueH (⟨[[1]]⟩ : Store Nat) 0).2 [99]).read 0 = [1] := by
  have h1 := c6_whole_value (JinjxSignalList.make ([1] : List Nat)) [1] rfl
  have h2 := c6_whole_value (JinjxSignalList.make ([1] : List Nat)) [2] rfl
  have h3 := h1.2.2.2.2.2 (⟨[[1]]⟩ : Store Nat) 0 (by decide)
  exact ⟨h1.2.2.1, h2.1, h3.1, (h3.2.2.2 [99]).trans (by decide)⟩

/-! ### Claim C7 -/

/-- Claim C7: for every unfrozen SignalList, `orderBy` sorts the sequence in
place (stably, per the comparator), returns the collection itself, and
notifies iff the post-sort sequence differs element-wise from the pre-sort
sequence (`arraysShallowEqual`); in particular a list that is already sorted
for the comparator fires no notification. -/
theorem c7_orderBy {T : Type} [DecidableEq T] (s : JinjxSignalList T)
    (le : T → T → Bool) (h : s._frozen = false) :
    (s.orderBy le).state.data = sortModel le s.data ∧
    (s.orderBy le).ret = (s.orderBy le).state ∧
    ((s.orderBy le).events ≠ []
      ↔ arraysShallowEqual (sortModel le s.data) s.data = false) ∧
    ((s.orderBy le).events ≠ [] ↔ sortModel le s.data ≠ s.data) ∧
    ((s.orderBy le).events ≠ [] →
      (s.orderBy le).events = [(sortModel le s.data, s.data)]) ∧
    (s.data.Pairwise (fun a b => le a b = true) →
      (s.orderBy le).events = []) := by
  have hiff := arraysShallowEqual_iff (sortModel le s.data) s.data
  cases hc : arraysShallowEqual (sortModel le s.data) s.data with
  | false =>
    have hne : sortModel le s.data ≠ s.data := fun he =>
      Bool.false_ne_true (hc.symm.trans (hiff.mpr he))
    have hres : s.orderBy le =
        ⟨{ s with data := sortModel le s.data },
          { s with data := sortModel le s.data },
          [(sortModel le s.data, s.data)]⟩ := by
      simp [JinjxSignalList.orderBy, hc, JinjxSignalList.notify, h]
    rw [hres]
    refine ⟨rfl, rfl, by simp [hc], by simp [hne], fun _ => rfl, ?_⟩
    intro hp
    exact absurd (sortModel_of_pairwise le s.data hp) hne
  | true =>
    have heq : sortModel le s.data = s.data := hiff.mp hc
    have hres : s.orderBy le =
        ⟨{ s with data := sortModel le s.data },
          { s with data := sortModel le s.data }, []⟩ := by
      simp [JinjxSignalList.orderBy, hc]
    rw [hres]
    refine ⟨rfl, rfl, by simp [hc], by simp [heq], by simp, fun _ => rfl⟩

/-- Witness for C7: sorting `[3,1,2]` ascending fires once with
`newValue = [1,2,3]`; sorting the already-sorted `[1,2,3]` fires nothing. -/
theorem c7_orderBy_witness :
    ((JinjxSignalList.make ([3, 1, 2] : List Nat)).orderBy Nat.ble).state.data
      = [1, 2, 3] ∧
    ((JinjxSignalList.make ([3, 1, 2] : List Nat)).orderBy Nat.ble).events
      = [([1, 2, 3], [3, 1, 2])] ∧
    ((JinjxSignalList.make ([1, 2, 3] : List Nat)).orderBy Nat.ble).events
      = [] := by
  have h1 := c7_orderBy (JinjxSignalList.make ([3, 1, 2] : List Nat)) Nat.ble rfl
  have h2 := c7_orderBy (JinjxSignalList.make ([1, 2, 3] : List Nat)) Nat.ble rfl
  refine ⟨h1.1.trans (by decide), ?_, h2.2.2.2.2.2 (by decide)⟩
  have hne := h1.2.2.2.1.mpr (by decide)
  exact (h1.2.2.2.2.1 hne).trans (by decide)

/-! ### Claim C8 -/

/-- Claim C8: for every unfrozen SignalList and every element predicate `p`,
`filterBy(p)` retains exactly the elements satisfying `p`, returns the array
of all removed elements (those failing `p`, in original order), and notifies
iff the length changed, equivalently iff some element was actually removed;
for predicates that remove nothing it returns `[]` and fires no
notification. -/
theorem c8_filterBy {T : Type} [DecidableEq T] (s : JinjxSignalList T)
    (p : T → Bool) (h : s._frozen = false) :
    (s.filterBy (fun x _ _ => p x)).state.data = s.data.filter p ∧
    (s.filterBy (fun x _ _ => p x)).ret = s.data.filter (fun x => !(p x)) ∧
    ((s.filterBy (fun x _ _ => p x)).events ≠ []
      ↔ (s.data.filter p).length ≠ s.data.length) ∧
    ((s.filterBy (fun x _ _ => p x)).events ≠ []
      ↔ ∃ x ∈ s.data, p x = false) ∧
    ((∀ x ∈ s.data, p x = true) →
      (s.filterBy (fun x _ _ => p x)).ret = [] ∧
      (s.filterBy (fun x _ _ => p x)).events = []) ∧
    ((s.filterBy (fun x _ _ => p x)).events ≠ [] →
      (s.filterBy (fun x _ _ => p x)).events
        = [(s.data.filter p, s.data)]) := by
  have hnew : jsFilter (fun x _ _ => p x) s.data 0 s.data = s.data.filter p :=
    jsFilter_value_pred p s.data 0 s.data
  have hrem : s.data.filter (fun item => !((s.data.filter p).contains item))
      = s.data.filter (fun x => !(p x)) :=
    List.filter_congr (fun x hx => by rw [filter_contains_of_mem p s.data x hx])
  by_cases hex : ∃ x ∈ s.data, p x = false
  · obtain ⟨x, hxmem, hpx⟩ := hex
    have hxrem : x ∈ s.data.filter (fun x => !(p x)) :=
      List.mem_filter.mpr ⟨hxmem, by simp [hpx]⟩
    have hlen : 0 < (s.data.filter (fun x => !(p x))).length :=
      List.length_pos.mpr (List.ne_nil_of_mem hxrem)
    have hlt : (s.data.filter p).length < s.data.length :=
      List.length_filter_lt_length_iff_exists.mpr ⟨x, hxmem, by simp [hpx]⟩
    have hres : s.filterBy (fun x _ _ => p x) =
        ⟨s.data.filter (fun x => !(p x)),
          { s with data := s.data.filter p },
          [(s.data.filter p, s.data)]⟩ := by
      simp only [JinjxSignalList.filterBy, hnew, hrem]
      rw [if_pos (Or.inl hlen)]
      simp [JinjxSignalList.notify, h]
    rw [hres]
    refine ⟨rfl, rfl, by simp [Nat.ne_of_lt hlt], ?_, ?_, fun _ => rfl⟩
    · simp only [ne_eq, List.cons_ne_nil, not_false_eq_true, true_iff]
      exact ⟨x, hxmem, hpx⟩
    · intro hall
      exact absurd (hall x hxmem) (by simp [hpx])
  · have hall : ∀ x ∈ s.data, p x = true := by
      intro x hx
      by_contra hc
      exact hex ⟨x, hx, by simpa using hc⟩
    have hremnil : s.data.filter (fun x => !(p x)) = [] :=
      List.filter_eq_nil_iff.mpr (fun a ha => by simp [hall a ha])
    have hself : s.data.filter p = s.data := List.filter_eq_self.mpr hall
    have hres : s.filterBy (fun x _ _ => p x) =
        ⟨s.data.filter (fun x => !(p x)), s, []⟩ := by
      simp only [JinjxSignalList.filterBy, hnew, hrem]
      rw [if_neg (by simp [hremnil, hself])]
    rw [hres]
    refine ⟨hself.symm, rfl, by simp [hself], ?_, fun _ => ⟨hremnil, rfl⟩,
      by simp⟩
    simp only [ne_eq, not_true_eq_false, false_iff, not_exists]
    intro x hx
    exact absurd hx.2 (by simp [hall x hx.1])

/-- Witness for C8: on `[1,2,3,4]`, keeping odd numbers removes `[2,4]`,
leaves `[1,3]` and fires one notification; the all-true predicate on `[1,2]`
removes nothing and fires none. -/
theorem c8_filterBy_witness :
    ((JinjxSignalList.make ([1, 2, 3, 4] : List Nat)).filterBy
      (fun x _ _ => decide (x % 2 = 1))).state.data = [1, 3] ∧
    ((JinjxSignalList.make ([1, 2, 3, 4] : List Nat)).filterBy
      (fun x _ _ => decide (x % 2 = 1))).ret = [2, 4] ∧
    ((JinjxSignalList.make ([1, 2, 3, 4] : List Nat)).filterBy
      (fun x _ _ => decide (x % 2 = 1))).events = [([1, 3], [1, 2, 3, 4])] ∧
    ((JinjxSignalList.make ([1, 2] : List Nat)).filterBy
      (fun _ _ _ => true)).ret = [] ∧
    ((JinjxSignalList.make ([1, 2] : List Nat)).filterBy
      (fun _ _ _ => true)).events = [] := by
  have h1 := c8_filterBy (JinjxSignalList.make ([1, 2, 3, 4] : List Nat))
    (fun x => decide (x % 2 = 1)) rfl
  have h2 := c8_filterBy (JinjxSignalList.make ([1, 2] : List Nat))
    (fun _ => true) rfl
  have hne := h1.2.2.2.1.mpr ⟨2, by decide, by decide⟩
  refine ⟨h1.1.trans (by decide), h1.2.1.trans (by decide),
    (h1.2.2.2.2.2 hne).trans (by decide), ?_, ?_⟩
  · exact (h2.2.2.2.2.1 (by decide)).1
  · exact (h2.2.2.2.2.1 (by decide)).2

/-! ### Claim C3 -/

/-- Counterexample to C3 as stated: in the heap model, start from a store
whose only array is the internal sequence `[1]` behind reference `0`.
`push([2])` notifies with `newValue` reference `0` — the internal `data`
reference itself, not a copy.  A watcher that mutates the `newValue` array it
was handed (writing `[99]` through reference `0`) changes what the
subsequent `value` read returns: `[99]` instead of `[1, 2]`. -/
theorem c3_copy_cex :
    (pushH (⟨[[1]]⟩ : Store Nat) 0 [2]).events = [(0, 1)] ∧
    (pushH (⟨[[1]]⟩ : Store Nat) 0 [2]).store.read 0 = [1, 2] ∧
    ((pushH (⟨[[1]]⟩ : Store Nat) 0 [2]).store.write 0 [99]).read 0 = [99] ∧
    (valueH ((pushH (⟨[[1]]⟩ : Store Nat) 0 [2]).store.write 0 [99]) 0).1.read
      (valueH ((pushH (⟨[[1]]⟩ : Store Nat) 0 [2]).store.write 0 [99]) 0).2
      = [99] ∧
    ([99] : List Nat) ≠ [1, 2] := by
  exact ⟨rfl, rfl, rfl, rfl, by decide⟩

/-- Claim C3 as amended: for every SignalList notification fired by `push`,
the `oldSequence` argument is an independent copy (a fresh reference holding
the pre-mutation contents, whose mutation never affects the internal array),
and every public `value` read returns an independent copy; but the
`newSequence` argument is the internal array itself (`this.data` is passed to
watchers without a copy), so mutating `newSequence` does reach internal
state. -/
theorem c3_copy {T : Type} (st : Store T) (self : Nat) (items v : List T)
    (h : self < st.arrays.length) :
    (pushH st self items).events = [(self, st.arrays.length)] ∧
    st.arrays.length ≠ self ∧
    (pushH st self items).store.read st.arrays.length = st.read self ∧
    (pushH st self items).store.read self = st.read self ++ items ∧
    ((pushH st self items).store.write st.arrays.length v).read self
      = st.read self ++ items ∧
    (valueH st self).2 ≠ self ∧
    (valueH st self).1.read (valueH st self).2 = st.read self ∧
    ((valueH st self).1.write (valueH st self).2 v).read self = st.read self := by
  have hne : st.arrays.length ≠ self := fun he => by omega
  have hself1 : self < (st.alloc (st.read self)).1.arrays.length := by
    rw [Store.alloc_length]
    omega
  refine ⟨rfl, hne, ?_, ?_, ?_, hne, ?_, ?_⟩
  · show ((st.alloc (st.read self)).1.write self
      (st.read self ++ items)).read st.arrays.length = st.read self
    rw [Store.read_write_ne _ _ _ _ hne]
    exact Store.read_alloc_new st (st.read self)
  · show ((st.alloc (st.read self)).1.write self
      (st.read self ++ items)).read self = st.read self ++ items
    exact Store.read_write_self _ _ _ hself1
  · show (((st.alloc (st.read self)).1.write self
      (st.read self ++ items)).write st.arrays.length v).read self
      = st.read self ++ items
    rw [Store.read_write_ne _ _ _ _ (fun he => hne he.symm)]
    exact Store.read_write_self _ _ _ hself1
  · exact Store.read_alloc_new st (st.read self)
  · show ((st.alloc (st.read self)).1.write
      (st.alloc (st.read self)).2 v).read self = st.read self
    rw [Store.alloc_ref, Store.read_write_ne _ _ _ _ (fun he => hne he.symm)]
    exact Store.read_alloc_old st (st.read self) self h

/-- Witness for C3 (amended) on the one-array store `[[1]]`: the old-value
copy is reference `1`, it holds `[1]`, and writing `[99]` through it leaves
the internal array `[1, 2]` untouched. -/
theorem c3_copy_witness :
    (pushH (⟨[[1]]⟩ : Store Nat) 0 [2]).events = [(0, 1)] ∧
    (pushH (⟨[[1]]⟩ : Store Nat) 0 [2]).store.read 1 = [1] ∧
    ((pushH (⟨[[1]]⟩ : Store Nat) 0 [2]).store.write 1 [99]).read 0 = [1, 2] ∧
    (valueH (⟨[[1]]⟩ : Store Nat) 0).1.read (valueH (⟨[[1]]⟩ : Store Nat) 0).2
      = [1] ∧
    ((valueH (⟨[[1]]⟩ : Store Nat) 0).1.write
      (valueH (⟨[[1]]⟩ : Store Nat) 0).2 [99]).read 0 = [1] := by
  have hc := c3_copy (⟨[[1]]⟩ : Store Nat) 0 [2] [99] (by decide)
  refine ⟨hc.1.trans (by decide), ?_, ?_, ?_, ?_⟩
  · exact hc.2.2.1.trans (by decide)
  · exact hc.2.2.2.2.1.trans (by decide)
  · exact hc.2.2.2.2.2.2.1.trans (by decide)
  · exact hc.2.2.2.2.2.2.2.trans (by decide)
